import Mathlib

/-!
Verification of the EPP client protocol engine (src/src/index.js).

The JavaScript source is embedded shallowly:

* wire bytes are `List Nat` (one entry per byte; the framer never inspects
  payload bytes beyond NUL/whitespace classification);
* JavaScript strings are `List Char` (or `String` where convenient);
* the xml2js parse tree is the inductive `JsValue` (string / object / array /
  null / undefined, as the parser produces with explicitArray:false);
* JavaScript numbers reaching the engine are `JsNum` (NaN, ±Infinity, or a
  rational), and `Number(string)` is modelled by `jsNumber`;
* the asynchronous correlator (pending table, timers, event emission) is a
  state record `CorrState` with one transition per source code path.

`trim()` and case-insensitive regex matching are modelled over the ASCII
range (the character sets the EPP protocol uses); Unicode-only whitespace
such as NBSP is outside the model and noted where it matters.
-/

namespace EppClient

/-! ## Transport framer (src/src/index.js, `_handleData` lines 490-516 and
the framing part of `sendCommand` lines 180-183)

Bytes are `List Nat`.  `Buffer.readUInt32BE(0)` reads the first four bytes
big-endian; `Buffer.slice(a, b)` is `take b` then `drop a`; Node's
`slice(b)` with `b ≤ length` is `drop b`. -/

/-- Big-endian 32-bit read of the first four bytes, as
`this._buffer.readUInt32BE(0)` does (callers guard `length ≥ 4`). -/
def readUInt32BE : List Nat → Nat
  | b0 :: b1 :: b2 :: b3 :: _ => ((b0 * 256 + b1) * 256 + b2) * 256 + b3
  | _ => 0

/-- Big-endian 32-bit write, as `header.writeUInt32BE(m, 0)` stores `m`
(the source would throw for `m ≥ 2^32`; callers pass `payload.length + 4`). -/
def writeUInt32BE (m : Nat) : List Nat :=
  [m / 2 ^ 24 % 256, m / 2 ^ 16 % 256, m / 2 ^ 8 % 256, m % 256]

/-- The framed message `sendCommand` writes: a 4-byte big-endian header
holding `payload.length + 4` followed by the payload bytes
(`Buffer.concat([header, payload])`, lines 180-183). -/
def encodeFrame (payload : List Nat) : List Nat :=
  writeUInt32BE (payload.length + 4) ++ payload

/-- JavaScript whitespace in the ASCII byte range: the characters
`String.prototype.trim` strips (tab, LF, VT, FF, CR, space). -/
def isWsByte (b : Nat) : Bool :=
  b == 9 || b == 10 || b == 11 || b == 12 || b == 13 || b == 32

/-- Byte-level model of `String.prototype.trim`: drop leading and trailing
ASCII whitespace bytes. -/
def trimBytes (s : List Nat) : List Nat :=
  ((s.dropWhile isWsByte).reverse.dropWhile isWsByte).reverse

/-- The payload post-processing of `_handleData` line 502:
`payload.toString('utf8').replace(/\u0000/g, '').trim()` — NUL characters
removed (a NUL is the single byte 0 in UTF-8), then trimmed. -/
def cleanPayload (payload : List Nat) : List Nat :=
  trimBytes (payload.filter (fun b => b ≠ 0))

/-- One iteration of the `while (this._buffer.length >= 4)` loop of
`_handleData`: either the handler returns to wait for more bytes, or it
consumes a declared frame, optionally emitting the cleaned payload
(an empty cleaned payload is skipped by the `continue`). -/
inductive FrameStep where
  | wait (buf : List Nat)
  | consumed (emitted : Option (List Nat)) (buf : List Nat)
deriving DecidableEq, Repr

/-- The body of the `_handleData` loop (lines 493-515), one iteration:
stop when fewer than 4 bytes are buffered; read the declared total length;
stop when the buffer is shorter than it; otherwise slice the payload
(`slice(4, messageLength)`), drop the consumed bytes
(`slice(messageLength)`) and clean the payload. -/
def handleDataStep (buf : List Nat) : FrameStep :=
  if buf.length < 4 then .wait buf
  else
    let messageLength := readUInt32BE buf
    if buf.length < messageLength then .wait buf
    else
      let payload := (buf.take messageLength).drop 4
      let xml := cleanPayload payload
      .consumed (if xml = [] then none else some xml) (buf.drop messageLength)

/-- The `_handleData` loop run to completion, with explicit fuel (the source
loop has no progress guarantee when the declared length is 0, so it is not
structurally recursive): returns the remaining buffer and the emitted
payloads in order. -/
def feedLoop : Nat → List Nat → List Nat × List (List Nat)
  | 0, buf => (buf, [])
  | fuel + 1, buf =>
    match handleDataStep buf with
    | .wait b => (b, [])
    | .consumed emitted b =>
      let (rem, outs) := feedLoop fuel b
      (rem, (match emitted with | none => [] | some x => [x]) ++ outs)

/-- One socket `data` event: append the chunk to the receive buffer
(`Buffer.concat`, line 491) and run the reassembly loop.  The fuel
`length + 1` is enough for every input on which the source loop
terminates, since a terminating iteration consumes at least one byte. -/
def feed (buf chunk : List Nat) : List Nat × List (List Nat) :=
  feedLoop ((buf ++ chunk).length + 1) (buf ++ chunk)

/-- A sequence of socket `data` events: the receive buffer persists between
calls, outputs are concatenated in order. -/
def feedChunks (buf : List Nat) : List (List Nat) → List Nat × List (List Nat)
  | [] => (buf, [])
  | c :: cs =>
    let (rem, outs) := feed buf c
    let (rem2, outs2) := feedChunks rem cs
    (rem2, outs ++ outs2)

/-! ### Lemmas about the framer -/

theorem readUInt32BE_append (u v : List Nat) (h : 4 ≤ u.length) :
    readUInt32BE (u ++ v) = readUInt32BE u := by
  match u with
  | a :: b :: c :: d :: rest => rfl
  | [] | [a] | [a, b] | [a, b, c] => simp at h

theorem readUInt32BE_writeUInt32BE (m : Nat) (rest : List Nat) (h : m < 2 ^ 32) :
    readUInt32BE (writeUInt32BE m ++ rest) = m := by
  simp only [readUInt32BE, writeUInt32BE, List.cons_append]
  norm_num
  omega

theorem encodeFrame_length (p : List Nat) : (encodeFrame p).length = p.length + 4 := by
  simp [encodeFrame, writeUInt32BE]
  try omega

/-- A proper front part of an encoded frame makes the loop wait for more
bytes: either fewer than 4 bytes are buffered, or the declared length
(the whole frame's length) exceeds what is buffered. -/
theorem handleDataStep_wait_of_proper (p u v : List Nat) (h32 : p.length + 4 < 2 ^ 32)
    (hv : v ≠ []) (huv : u ++ v = encodeFrame p) : handleDataStep u = .wait u := by
  unfold handleDataStep
  by_cases h4 : u.length < 4
  · simp [h4]
  · have hr : readUInt32BE u = p.length + 4 := by
      have h1 : readUInt32BE (u ++ v) = readUInt32BE u :=
        readUInt32BE_append u v (by omega)
      rw [huv] at h1
      rw [← h1]
      exact readUInt32BE_writeUInt32BE _ p h32
    have hlen : u.length < p.length + 4 := by
      have h2 := congrArg List.length huv
      rw [encodeFrame_length] at h2
      simp only [List.length_append] at h2
      have hv1 : 0 < v.length := List.length_pos.mpr hv
      omega
    simp [h4, hr, hlen]

/-- A buffer holding exactly one encoded frame is consumed whole, emitting
the cleaned payload when it is non-empty. -/
theorem handleDataStep_encodeFrame (p : List Nat) (h32 : p.length + 4 < 2 ^ 32) :
    handleDataStep (encodeFrame p) =
      .consumed (if cleanPayload p = [] then none else some (cleanPayload p)) [] := by
  unfold handleDataStep
  have hlen := encodeFrame_length p
  have hr : readUInt32BE (encodeFrame p) = p.length + 4 := by
    have := readUInt32BE_writeUInt32BE (p.length + 4) p h32
    simpa [encodeFrame] using this
  have h4 : ¬ (encodeFrame p).length < 4 := by omega
  have hfit : ¬ (encodeFrame p).length < p.length + 4 := by omega
  simp only [h4, if_false, hr, hfit]
  have htake : (encodeFrame p).take (p.length + 4) = encodeFrame p :=
    List.take_of_length_le (by omega)
  have hdrop4 : (encodeFrame p).drop 4 = p := by
    have : (writeUInt32BE (p.length + 4)).length = 4 := by simp [writeUInt32BE]
    calc (encodeFrame p).drop 4
        = (writeUInt32BE (p.length + 4) ++ p).drop (writeUInt32BE (p.length + 4)).length := by
          rw [this]; rfl
      _ = p := List.drop_left _ _
  have hdropAll : (encodeFrame p).drop (p.length + 4) = [] := by
    apply List.drop_eq_nil_of_le
    omega
  rw [htake, hdrop4, hdropAll]

theorem feedLoop_wait (fuel : Nat) (u : List Nat) (h : handleDataStep u = .wait u) :
    feedLoop fuel u = (u, []) := by
  cases fuel with
  | zero => rfl
  | succ n => simp [feedLoop, h]

theorem handleDataStep_nil : handleDataStep [] = .wait [] := rfl

/-- The emitted-payload list of a complete frame: empty when the cleaned
payload is empty (the `continue` branch), a singleton otherwise. -/
def emittedOf (p : List Nat) : List (List Nat) :=
  if cleanPayload p = [] then [] else [cleanPayload p]

theorem feedLoop_encodeFrame (fuel : Nat) (p : List Nat) (h32 : p.length + 4 < 2 ^ 32) :
    feedLoop (fuel + 1) (encodeFrame p) = ([], emittedOf p) := by
  simp only [feedLoop, handleDataStep_encodeFrame p h32]
  rw [feedLoop_wait fuel [] handleDataStep_nil]
  by_cases hc : cleanPayload p = [] <;> simp [emittedOf, hc]

theorem feed_of_wait (buf chunk : List Nat)
    (h : handleDataStep (buf ++ chunk) = .wait (buf ++ chunk)) :
    feed buf chunk = (buf ++ chunk, []) :=
  feedLoop_wait _ _ h

theorem feed_encodeFrame (buf chunk p : List Nat) (h32 : p.length + 4 < 2 ^ 32)
    (h : buf ++ chunk = encodeFrame p) :
    feed buf chunk = ([], emittedOf p) := by
  unfold feed
  rw [h]
  exact feedLoop_encodeFrame _ p h32

theorem feedChunks_all_nil (cs : List (List Nat)) (h : cs.flatten = []) :
    feedChunks [] cs = ([], []) := by
  induction cs with
  | nil => rfl
  | cons c cs ih =>
    rw [List.flatten_cons] at h
    obtain ⟨hc, hcs⟩ := List.append_eq_nil.mp h
    subst hc
    have hfeed : feed [] [] = ([], []) := feed_of_wait [] [] handleDataStep_nil
    simp [feedChunks, hfeed, ih hcs]

/-- Feeding any chunking of one encoded frame consumes it whole and emits
exactly the frame's cleaned payload (or nothing when that is empty). -/
theorem feedChunks_encodeFrame (p : List Nat) (h32 : p.length + 4 < 2 ^ 32) :
    ∀ (cs : List (List Nat)) (buf : List Nat), buf ≠ encodeFrame p →
      buf ++ cs.flatten = encodeFrame p → feedChunks buf cs = ([], emittedOf p) := by
  intro cs
  induction cs with
  | nil =>
    intro buf hne h
    simp only [List.flatten_nil, List.append_nil] at h
    exact absurd h hne
  | cons c cs ih =>
    intro buf hne h
    simp only [List.flatten_cons, ← List.append_assoc] at h
    by_cases hfull : buf ++ c = encodeFrame p
    · have hjoin : cs.flatten = [] := by
        rw [hfull] at h
        simpa using h
      have h1 : feed buf c = ([], emittedOf p) := feed_encodeFrame buf c p h32 hfull
      simp [feedChunks, h1, feedChunks_all_nil cs hjoin]
    · have hwait : handleDataStep (buf ++ c) = .wait (buf ++ c) := by
        apply handleDataStep_wait_of_proper p (buf ++ c) cs.flatten h32 _ h
        intro hnil
        rw [hnil, List.append_nil] at h
        exact hfull h
      have h1 : feed buf c = (buf ++ c, []) := feed_of_wait buf c hwait
      simp only [feedChunks, h1]
      rw [ih (buf ++ c) hfull h]
      simp

/-! ### Claims C2 and C10 -/

/-- C2 (amended): for any payload that contains no NUL byte and whose
trimmed content is non-empty, feeding the bytes of its encoded frame
(4-byte big-endian header holding length + 4, then the payload) through the
framer in any chunking yields exactly the one-element sequence holding the
trimmed payload, with an empty buffer left over.  (The claim as frozen
fails for whitespace-only payloads, which the framer silently drops, and
for payloads holding NUL bytes, which it strips: see the counterexample.) -/
theorem framing_roundtrip_chunked (p : List Nat) (cs : List (List Nat))
    (h32 : p.length + 4 < 2 ^ 32) (hnul : ∀ b ∈ p, b ≠ 0)
    (htrim : trimBytes p ≠ []) (hcs : cs.flatten = encodeFrame p) :
    feedChunks [] cs = ([], [trimBytes p]) := by
  have hframe : ([] : List Nat) ≠ encodeFrame p := by
    intro hco
    have := congrArg List.length hco
    rw [encodeFrame_length] at this
    simp at this
  have h := feedChunks_encodeFrame p h32 cs [] hframe (by simpa using hcs)
  have hfilter : p.filter (fun b => b ≠ 0) = p :=
    List.filter_eq_self.mpr (fun b hb => by simpa using hnul b hb)
  have hem : emittedOf p = [trimBytes p] := by
    unfold emittedOf cleanPayload
    rw [hfilter]
    simp [htrim]
  rw [hem] at h
  exact h

/-- C2 witness: the frame for the payload "<a/>" split after its third
byte and fed as two chunks yields exactly the payload. -/
theorem framing_roundtrip_chunked_witness :
    feedChunks [] [[0, 0, 0], [8, 60, 97, 47, 62]] = ([], [[60, 97, 47, 62]]) := by
  have h := framing_roundtrip_chunked [60, 97, 47, 62] [[0, 0, 0], [8, 60, 97, 47, 62]]
    (by decide) (by decide) (by decide) (by decide)
  rw [show trimBytes [60, 97, 47, 62] = [60, 97, 47, 62] from rfl] at h
  exact h

/-- C2 counterexample: for the single-space payload the claim as frozen
predicts the one-element output [trim " "]; the framer instead drops the
whitespace-only payload and yields nothing. -/
theorem framing_roundtrip_whitespace_payload :
    decide (feedChunks [] [encodeFrame [32]] = ([], [trimBytes [32]])) = false := by
  decide

/-- C10: a buffered frame header declaring total length 0 (four zero
bytes) gives a loop iteration that neither returns nor shrinks the buffer
(`slice(0)` leaves the buffer unchanged), so the reassembly loop of
`_handleData` never terminates on this input: under every fuel bound the
loop is still spinning on the same 4-byte buffer, contradicting the claim
that every non-returning iteration consumes at least one byte. -/
theorem handleData_zero_length_no_progress :
    handleDataStep [0, 0, 0, 0] = .consumed none [0, 0, 0, 0] ∧
      ∀ fuel, feedLoop fuel [0, 0, 0, 0] = ([0, 0, 0, 0], []) := by
  refine ⟨rfl, ?_⟩
  intro fuel
  induction fuel with
  | zero => rfl
  | succ n ih =>
    simp [feedLoop, show handleDataStep [0, 0, 0, 0] = .consumed none [0, 0, 0, 0] from rfl,
      ih]

/-! ## JavaScript string primitives

Strings are `List Char`.  `trim()` strips the JavaScript whitespace set
(modelled here by its members below U+2030 plus BOM); case-insensitive
regex matching lowers ASCII letters on both sides. -/

/-- The whitespace characters `String.prototype.trim` strips (tab, LF, VT,
FF, CR, space, NBSP, LS, PS, BOM). -/
def jsWsChar (c : Char) : Bool :=
  c.toNat == 9 || c.toNat == 10 || c.toNat == 11 || c.toNat == 12 || c.toNat == 13 ||
    c.toNat == 32 || c.toNat == 160 || c.toNat == 8232 || c.toNat == 8233 || c.toNat == 65279

/-- Character-level model of `String.prototype.trim`. -/
def jsTrimChars (s : List Char) : List Char :=
  ((s.dropWhile jsWsChar).reverse.dropWhile jsWsChar).reverse

/-- String-level `trim()`. -/
def jsTrim (s : String) : String :=
  ⟨jsTrimChars s.data⟩

/-- ASCII lower-casing of one character, as a case-insensitive (`/i`) regex
compares letters. -/
def lowerCh (c : Char) : Char :=
  if 'A' ≤ c ∧ c ≤ 'Z' then Char.ofNat (c.toNat + 32) else c

theorem lowerCh_toNat_of_upper (c : Char) (h1 : 'A' ≤ c) (h2 : c ≤ 'Z') :
    (lowerCh c).toNat = c.toNat + 32 := by
  have hb : c.toNat ≤ 90 := Char.le_def.mp h2
  unfold lowerCh Char.ofNat
  rw [if_pos ⟨h1, h2⟩, dif_pos (Or.inl (by omega : c.toNat + 32 < 55296))]
  rfl

/-- Lower-casing can only produce an ASCII lowercase letter or leave the
character unchanged, so a non-lowercase-letter target pins the input. -/
theorem lowerCh_eq_of_nonletter (c t : Char) (ht : t.toNat < 97 ∨ 122 < t.toNat)
    (h : lowerCh c = t) : c = t := by
  by_cases hu : 'A' ≤ c ∧ c ≤ 'Z'
  · exfalso
    have h1 : 65 ≤ c.toNat := Char.le_def.mp hu.1
    have h2 : c.toNat ≤ 90 := Char.le_def.mp hu.2
    have h3 := lowerCh_toNat_of_upper c hu.1 hu.2
    rw [h] at h3
    omega
  · unfold lowerCh at h
    rwa [if_neg hu] at h

/-! ## XML escaping (src/src/index.js, `escapeXml` lines 956-967)

The source applies five global character replacements in order:
`&`, `<`, `>`, `"`, `'`. -/

/-- One global single-character replacement, `String.prototype.replace`
with a global single-character pattern. -/
def replaceAllChar (c : Char) (rep : List Char) : List Char → List Char
  | [] => []
  | x :: xs => (if x = c then rep else [x]) ++ replaceAllChar c rep xs

/-- The `escapeXml` function: the source's five `.replace` calls in their
order (`&` first so later entities keep their own ampersand). -/
def escapeXmlChars (s : List Char) : List Char :=
  replaceAllChar '\'' ['&', 'a', 'p', 'o', 's', ';']
    (replaceAllChar '"' ['&', 'q', 'u', 'o', 't', ';']
      (replaceAllChar '>' ['&', 'g', 't', ';']
        (replaceAllChar '<' ['&', 'l', 't', ';']
          (replaceAllChar '&' ['&', 'a', 'm', 'p', ';'] s))))

/-- Per-character view of `escapeXmlChars`: what one input character
contributes to the output. -/
def escChar (c : Char) : List Char :=
  if c = '&' then ['&', 'a', 'm', 'p', ';']
  else if c = '<' then ['&', 'l', 't', ';']
  else if c = '>' then ['&', 'g', 't', ';']
  else if c = '"' then ['&', 'q', 'u', 'o', 't', ';']
  else if c = '\'' then ['&', 'a', 'p', 'o', 's', ';']
  else [c]

theorem replaceAllChar_append (c : Char) (rep a b : List Char) :
    replaceAllChar c rep (a ++ b) = replaceAllChar c rep a ++ replaceAllChar c rep b := by
  induction a with
  | nil => rfl
  | cons x xs ih => simp [replaceAllChar, ih]

theorem escapeXmlChars_cons (c : Char) (s : List Char) :
    escapeXmlChars (c :: s) = escChar c ++ escapeXmlChars s := by
  show escapeXmlChars ([c] ++ s) = _
  unfold escapeXmlChars
  rw [replaceAllChar_append, replaceAllChar_append, replaceAllChar_append,
    replaceAllChar_append, replaceAllChar_append]
  congr 1
  by_cases h1 : c = '&'
  · subst h1; rfl
  by_cases h2 : c = '<'
  · subst h2; rfl
  by_cases h3 : c = '>'
  · subst h3; rfl
  by_cases h4 : c = '"'
  · subst h4; rfl
  by_cases h5 : c = '\''
  · subst h5; rfl
  simp [replaceAllChar, escChar, h1, h2, h3, h4, h5]

theorem mem_escapeXmlChars (d : Char) (s : List Char) (h : d ∈ escapeXmlChars s) :
    ∃ c ∈ s, d ∈ escChar c := by
  induction s with
  | nil => simp [escapeXmlChars, replaceAllChar] at h
  | cons c cs ih =>
    rw [escapeXmlChars_cons] at h
    rcases List.mem_append.mp h with h1 | h2
    · exact ⟨c, List.mem_cons_self c cs, h1⟩
    · obtain ⟨x, hx, hd⟩ := ih h2
      exact ⟨x, List.mem_cons_of_mem c hx, hd⟩

/-- None of the four bracket/quote metacharacters survives escaping. -/
theorem escapeXmlChars_no_meta (d : Char) (hd : d = '<' ∨ d = '>' ∨ d = '"' ∨ d = '\'')
    (s : List Char) : d ∉ escapeXmlChars s := by
  intro hmem
  obtain ⟨c, _, hd2⟩ := mem_escapeXmlChars d s hmem
  unfold escChar at hd2
  rcases hd with h | h | h | h <;> subst h <;>
    (repeat' split at hd2) <;> simp_all [eq_comm]

/-- Prefix test on character lists (model-side helper). -/
def hasPfx : List Char → List Char → Bool
  | [], _ => true
  | _ :: _, [] => false
  | p :: ps, c :: cs => p == c && hasPfx ps cs

/-- XML entity decoding of the five entities `escapeXml` emits: the
model-side reading of escaped output.  Decoding after escaping recovers
the input exactly, which is what "no raw metacharacter remains" means for
the ampersands inside entities. -/
def unescapeXml (s : List Char) : List Char :=
  match s with
  | [] => []
  | c :: rest =>
    if c = '&' ∧ hasPfx ['a', 'm', 'p', ';'] rest then '&' :: unescapeXml (rest.drop 4)
    else if c = '&' ∧ hasPfx ['l', 't', ';'] rest then '<' :: unescapeXml (rest.drop 3)
    else if c = '&' ∧ hasPfx ['g', 't', ';'] rest then '>' :: unescapeXml (rest.drop 3)
    else if c = '&' ∧ hasPfx ['q', 'u', 'o', 't', ';'] rest then '"' :: unescapeXml (rest.drop 5)
    else if c = '&' ∧ hasPfx ['a', 'p', 'o', 's', ';'] rest then '\'' :: unescapeXml (rest.drop 5)
    else c :: unescapeXml rest
termination_by s.length
decreasing_by all_goals (simp [List.length_drop]; try omega)

theorem unescapeXml_escapeXmlChars (s : List Char) :
    unescapeXml (escapeXmlChars s) = s := by
  induction s with
  | nil => rw [show escapeXmlChars [] = [] from rfl, unescapeXml]
  | cons c cs ih =>
    rw [escapeXmlChars_cons]
    by_cases h1 : c = '&'
    · subst h1
      show unescapeXml ('&' :: (['a', 'm', 'p', ';'] ++ escapeXmlChars cs)) = _
      rw [unescapeXml]
      simp only [hasPfx, List.cons_append, List.drop_succ_cons, List.drop_zero]
      simp [ih]
    by_cases h2 : c = '<'
    · subst h2
      show unescapeXml ('&' :: (['l', 't', ';'] ++ escapeXmlChars cs)) = _
      rw [unescapeXml]
      simp [hasPfx, ih]
    by_cases h3 : c = '>'
    · subst h3
      show unescapeXml ('&' :: (['g', 't', ';'] ++ escapeXmlChars cs)) = _
      rw [unescapeXml]
      simp [hasPfx, ih]
    by_cases h4 : c = '"'
    · subst h4
      show unescapeXml ('&' :: (['q', 'u', 'o', 't', ';'] ++ escapeXmlChars cs)) = _
      rw [unescapeXml]
      simp [hasPfx, ih]
    by_cases h5 : c = '\''
    · subst h5
      show unescapeXml ('&' :: (['a', 'p', 'o', 's', ';'] ++ escapeXmlChars cs)) = _
      rw [unescapeXml]
      simp [hasPfx, ih]
    · have hc : escChar c = [c] := by simp [escChar, h1, h2, h3, h4, h5]
      rw [hc]
      show unescapeXml (c :: escapeXmlChars cs) = _
      rw [unescapeXml]
      simp only [h1, false_and, if_false]
      simp [ih]

/-- The `domain:status` attribute line of `buildUpdateDomainCommand`
(line 821): the one generated attribute value, escaped like every other
embedded string. -/
def buildStatusLine (s : List Char) : List Char :=
  "          <domain:status s=\"".data ++ escapeXmlChars s ++ "\"/>".data

/-- C8: escaping replaces each of the five XML metacharacters by its
entity and leaves no raw metacharacter: the output contains no `<`, `>`,
`"` or `'` at all; every `&` it contains opens one of the five entities
(equivalently, entity-decoding the output recovers the input exactly);
the witness input from the spec escapes to the predicted entity string;
and inside an attribute value (the `domain:status s="…"` line) the only
quote characters are the two delimiters. -/
theorem escapeXml_contract (s : List Char) :
    '<' ∉ escapeXmlChars s ∧ '>' ∉ escapeXmlChars s ∧ '"' ∉ escapeXmlChars s ∧
      '\'' ∉ escapeXmlChars s ∧
      unescapeXml (escapeXmlChars s) = s ∧
      escapeXmlChars "<script>&\"'".data = "&lt;script&gt;&amp;&quot;&apos;".data ∧
      (buildStatusLine s).count '"' = 2 := by
  refine ⟨escapeXmlChars_no_meta '<' (by simp) s, escapeXmlChars_no_meta '>' (by simp) s,
    escapeXmlChars_no_meta '"' (by simp) s, escapeXmlChars_no_meta '\'' (by simp) s,
    unescapeXml_escapeXmlChars s, by decide, ?_⟩
  have hq : '"' ∉ escapeXmlChars s := escapeXmlChars_no_meta '"' (by simp) s
  unfold buildStatusLine
  rw [List.count_append, List.count_append]
  rw [List.count_eq_zero.mpr hq]
  decide

/-! ## Transaction-id preparation (src/src/index.js, `_prepareCommand`
lines 620-645)

The source matches `/<clTRID>([^<]*)<\/clTRID>/i` (first occurrence,
greedy `[^<]*` — since the run cannot contain `<` and the closing tag
starts with `<`, the regex engine's backtracking never helps: the content
is the maximal `<`-free run after the opening tag, and the closing tag
must follow it directly), tests `/<\/command>/i`, and replaces the first
`/<\/command>/i` occurrence.  Patterns are stored lowercase; `/i`
comparison lowers the subject character. -/

/-- The opening tag pattern of the clTRID regex, lowercased. -/
def opPat : List Char := ['<', 'c', 'l', 't', 'r', 'i', 'd', '>']

/-- The closing tag pattern of the clTRID regex, lowercased. -/
def clPat : List Char := ['<', '/', 'c', 'l', 't', 'r', 'i', 'd', '>']

/-- The `</command>` pattern, lowercased. -/
def cmdPat : List Char := ['<', '/', 'c', 'o', 'm', 'm', 'a', 'n', 'd', '>']

/-- Case-insensitively strip a lowercased literal pattern from the head of
a string, returning the remainder. -/
def ciStrip : List Char → List Char → Option (List Char)
  | [], s => some s
  | _ :: _, [] => none
  | p :: ps, c :: cs => if lowerCh c == p then ciStrip ps cs else none

/-- Match `<clTRID>([^<]*)</clTRID>` (case-insensitive) at the head of
`s`: on success, the captured content and the remainder after the match. -/
def clTRIDAt (s : List Char) : Option (List Char × List Char) :=
  match ciStrip opPat s with
  | none => none
  | some r =>
    match ciStrip clPat (r.dropWhile (fun c => c ≠ '<')) with
    | none => none
    | some rest => some (r.takeWhile (fun c => c ≠ '<'), rest)

/-- First match of the clTRID regex: the captured group of the leftmost
position where the whole pattern matches (`String.prototype.match`). -/
def findClTRID : List Char → Option (List Char)
  | [] => none
  | c :: cs =>
    match clTRIDAt (c :: cs) with
    | some (content, _) => some content
    | none => findClTRID cs

/-- Number of positions at which the clTRID element pattern matches.
Matches of this pattern can never overlap (a later match must start at a
`<`, and the only interior `<` of a match starts the closing tag, where
the opening-tag pattern fails on the following `/`), so this equals the
number of regex matches. -/
def clTRIDCount : List Char → Nat
  | [] => 0
  | c :: cs => (if (clTRIDAt (c :: cs)).isSome then 1 else 0) + clTRIDCount cs

/-- Matches of the clTRID pattern starting inside `A` when `B` follows it. -/
def crossCl : List Char → List Char → Nat
  | [], _ => 0
  | c :: cs, B => (if (clTRIDAt (c :: cs ++ B)).isSome then 1 else 0) + crossCl cs B

/-- Split at the first case-insensitive occurrence of a pattern:
`some (front, matched, back)` with the subject =
front ++ matched ++ back, `matched` the occurrence in its original case
(`String.prototype.replace` on a `/i` regex replaces exactly this
occurrence; `test` succeeds iff this is `some`). -/
def ciSplitFirst (pat : List Char) : List Char → Option (List Char × List Char × List Char)
  | [] => none
  | c :: cs =>
    match ciStrip pat (c :: cs) with
    | some rest => some ([], (c :: cs).take pat.length, rest)
    | none =>
      match ciSplitFirst pat cs with
      | some (front, m, back) => some (c :: front, m, back)
      | none => none

/-- Outcome of `_prepareCommand`: an `Error` return or `{xml, transactionId}`. -/
inductive PrepareResult where
  | err (message : List Char)
  | ok (xml : List Char) (transactionId : List Char)
deriving DecidableEq, Repr

/-- ECMAScript GetSubstitution for a string replacement and a regex with
no capture groups, as `String.prototype.replace` applies it: `$$` gives
`$`, `$&` inserts the matched text, a dollar before a backtick inserts
the part of the subject before the match, `$'` the part after it; any
other `$` (including `$digit`, since the regex has no groups, and `$<`,
since it has no named groups) stays literal.  Inserted text is not
rescanned. -/
def getSubstitution (matched front back : List Char) : List Char → List Char
  | [] => []
  | c :: rest =>
    if c = '$' then
      match rest with
      | [] => ['$']
      | d :: rest2 =>
        if d = '$' then '$' :: getSubstitution matched front back rest2
        else if d = '&' then matched ++ getSubstitution matched front back rest2
        else if d = '`' then front ++ getSubstitution matched front back rest2
        else if d = '\'' then back ++ getSubstitution matched front back rest2
        else '$' :: getSubstitution matched front back (d :: rest2)
    else c :: getSubstitution matched front back rest

/-- The replacement string the source builds for the injection:
`` `${injection}\n  </command>` `` with
`injection = "    <clTRID>" + escapeXml(transactionId) + "</clTRID>"`. -/
def injectReplacement (transactionId : List Char) : List Char :=
  "    <clTRID>".data ++ escapeXmlChars transactionId ++ "</clTRID>".data ++
    "\n  </command>".data

/-- The XML produced by
`trimmed.replace(/<\/command>/i, injection ++ "\n  </command>")`: the
part before the first match, then the replacement string with its
GetSubstitution `$`-patterns expanded against the match, then the part
after it. -/
def injectOutput (front matched back transactionId : List Char) : List Char :=
  front ++ getSubstitution matched front back (injectReplacement transactionId) ++ back

/-- The literal splice the replacement produces whenever the replacement
string holds no active `$`-pattern (in particular for every transaction
id without a `$`; the ids the client generates are of this shape). -/
def injectLiteral (front back transactionId : List Char) : List Char :=
  front ++ "    <clTRID>".data ++ escapeXmlChars transactionId ++ "</clTRID>".data ++
    "\n  </command>".data ++ back

/-- The `_prepareCommand` method.  `providedTransactionId = none` models an
absent (undefined) argument; `freshId` stands for the value
`this._nextTransactionId()` would mint if consulted. -/
def prepareCommand (xml : List Char) (providedTransactionId : Option (List Char))
    (freshId : List Char) : PrepareResult :=
  let trimmed := jsTrimChars xml
  if trimmed = [] then .err "An XML payload is required.".data
  else
    match findClTRID trimmed with
    | some content =>
      let existing := jsTrimChars content
      let transactionId :=
        if existing ≠ [] then existing
        else
          match providedTransactionId with
          | some p => if p ≠ [] then p else freshId
          | none => freshId
      .ok trimmed transactionId
    | none =>
      let transactionId :=
        match providedTransactionId with
        | some p => p
        | none => freshId
      match ciSplitFirst cmdPat trimmed with
      | none => .err "Unable to inject <clTRID>: no </command> closing tag found.".data
      | some (front, m, back) => .ok (injectOutput front m back transactionId) transactionId

/-! ### Claim C5 -/

/-- C5 (amended): when the (trimmed) input already contains a
`<clTRID>` element, the returned XML is the trimmed input, unmodified:
if the element's trimmed text content is non-empty, it becomes the
transaction id; if it is empty, the provided id (when non-empty;
otherwise a freshly generated one) becomes the transaction id, but it is
not substituted into the XML — the element stays empty.  (The claim as
frozen says the id "is substituted into the returned XML's <clTRID>
element" and that the XML is "the input unmodified"; the code neither
substitutes nor returns untrimmed input: see the counterexample.) -/
theorem prepare_existing_clTRID (xml : List Char) (pid : Option (List Char))
    (freshId content : List Char)
    (hfind : findClTRID (jsTrimChars xml) = some content) :
    (jsTrimChars content ≠ [] →
      prepareCommand xml pid freshId = .ok (jsTrimChars xml) (jsTrimChars content)) ∧
    (jsTrimChars content = [] →
      prepareCommand xml pid freshId = .ok (jsTrimChars xml)
        (match pid with | some p => if p ≠ [] then p else freshId | none => freshId)) := by
  have htrim : jsTrimChars xml ≠ [] := by
    intro h
    rw [h] at hfind
    simp [findClTRID] at hfind
  constructor
  · intro hne
    unfold prepareCommand
    simp only [htrim, if_false, hfind]
    simp [hne]
  · intro heq
    unfold prepareCommand
    simp only [htrim, if_false, hfind]
    simp [heq]

/-- C5 witness: a command whose `<clTRID>` holds `X` keeps its XML and
returns `X` as the transaction id. -/
theorem prepare_existing_clTRID_witness :
    prepareCommand "<command><clTRID>X</clTRID></command>".data (some "p".data) "f".data =
      .ok "<command><clTRID>X</clTRID></command>".data "X".data := by
  have h := (prepare_existing_clTRID "<command><clTRID>X</clTRID></command>".data
    (some "p".data) "f".data "X".data (by decide)).1 (by decide)
  rw [h]
  decide

/-- C5 counterexample: on input with a leading space and an empty
`<clTRID></clTRID>`, the returned XML is the trimmed input with the
element still empty — the provided id `p` is the returned transaction id
but is not substituted into the XML, and the XML differs from the input. -/
theorem prepare_empty_clTRID_not_substituted :
    prepareCommand " <command><clTRID></clTRID></command>".data (some "p".data) "f".data =
      .ok "<command><clTRID></clTRID></command>".data "p".data ∧
    decide ("<command><clTRID></clTRID></command>".data =
      " <command><clTRID></clTRID></command>".data) = false ∧
    decide (findClTRID "<command><clTRID></clTRID></command>".data = some "p".data) = false := by
  exact ⟨by decide, by decide, by decide⟩

/-! ### Claim C6: supporting lemmas on case-insensitive matching -/

theorem ciStrip_cons_false (p c : Char) (ps s : List Char) (h : (lowerCh c == p) = false) :
    ciStrip (p :: ps) (c :: s) = none := by
  simp [ciStrip, h]

theorem clTRIDAt_nil : clTRIDAt [] = none := rfl

theorem clTRIDAt_cons_none (c : Char) (s : List Char) (h : (lowerCh c == '<') = false) :
    clTRIDAt (c :: s) = none := by
  unfold clTRIDAt
  rw [show ciStrip opPat (c :: s) = none from ciStrip_cons_false '<' c _ s h]

theorem clTRIDAt_lt_slash (s : List Char) : clTRIDAt ('<' :: '/' :: s) = none := rfl

theorem lowerCh_beq_lt_false (c : Char) (h : c ≠ '<') : (lowerCh c == '<') = false := by
  apply beq_false_of_ne
  intro he
  exact h (lowerCh_eq_of_nonletter c '<' (Or.inl (by decide)) he)

theorem ciStrip_append_split (pat : List Char) :
    ∀ (u v r : List Char), ciStrip pat (u ++ v) = some r →
      (∃ ru, ciStrip pat u = some ru ∧ r = ru ++ v) ∨
        (u.length < pat.length ∧ ciStrip (pat.drop u.length) v = some r) := by
  induction pat with
  | nil =>
    intro u v r h
    left
    refine ⟨u, rfl, ?_⟩
    simpa [ciStrip] using h.symm
  | cons p ps ih =>
    intro u v r h
    cases u with
    | nil =>
      right
      exact ⟨by simp, by simpa using h⟩
    | cons c cs =>
      rw [List.cons_append] at h
      unfold ciStrip at h
      split at h
      · rcases ih cs v r h with ⟨ru, h1, h2⟩ | ⟨h1, h2⟩
        · left
          refine ⟨ru, ?_, h2⟩
          unfold ciStrip
          simp only [*, if_true]
        · right
          refine ⟨by simpa using Nat.succ_lt_succ h1, ?_⟩
          simpa using h2
      · exact absurd h (by simp)

theorem ciStrip_append_extend (pat : List Char) :
    ∀ (u w ru : List Char), ciStrip pat u = some ru →
      ciStrip pat (u ++ w) = some (ru ++ w) := by
  induction pat with
  | nil =>
    intro u w ru h
    simp only [ciStrip, Option.some_inj] at h ⊢
    rw [h]
  | cons p ps ih =>
    intro u w ru h
    cases u with
    | nil => exact absurd h (by simp [ciStrip])
    | cons c cs =>
      unfold ciStrip at h
      split at h
      · next hcond =>
        rw [List.cons_append]
        have hstep : ciStrip (p :: ps) (c :: (cs ++ w)) = ciStrip ps (cs ++ w) := by
          rw [ciStrip, if_pos hcond]
        rw [hstep]
        exact ih cs w ru h
      · exact absurd h (by simp)

theorem ciStrip_some_decomp (pat : List Char) :
    ∀ (s r : List Char), ciStrip pat s = some r →
      ∃ m, s = m ++ r ∧ m.length = pat.length := by
  induction pat with
  | nil =>
    intro s r h
    simp only [ciStrip, Option.some_inj] at h
    exact ⟨[], by rw [h, List.nil_append], rfl⟩
  | cons p ps ih =>
    intro s r h
    cases s with
    | nil => exact absurd h (by simp [ciStrip])
    | cons c cs =>
      unfold ciStrip at h
      split at h
      · obtain ⟨m, hm, hlen⟩ := ih cs r h
        exact ⟨c :: m, by rw [List.cons_append, hm], by simp [hlen]⟩
      · exact absurd h (by simp)

theorem ciSplitFirst_some_decomp (pat : List Char) :
    ∀ (s front m back : List Char), ciSplitFirst pat s = some (front, m, back) →
      s = front ++ (m ++ back) := by
  intro s
  induction s with
  | nil => intro front m back h; simp [ciSplitFirst] at h
  | cons c cs ih =>
    intro front m back h
    unfold ciSplitFirst at h
    split at h
    · next rest h1 =>
      obtain ⟨hf, hmb⟩ := Prod.mk.injEq .. ▸ (Option.some_inj.mp h)
      obtain ⟨hm, hb⟩ := Prod.mk.injEq .. ▸ hmb
      obtain ⟨w, hw, hwlen⟩ := ciStrip_some_decomp pat (c :: cs) rest h1
      have htake : (c :: cs).take pat.length = w := by
        rw [hw, ← hwlen, List.take_left]
      subst hf hb
      rw [List.nil_append, ← hm, htake]
      exact hw
    · split at h
      · next f mm b h2 =>
        obtain ⟨hf, hmb⟩ := Prod.mk.injEq .. ▸ (Option.some_inj.mp h)
        obtain ⟨hm, hb⟩ := Prod.mk.injEq .. ▸ hmb
        have hrec := ih f mm b h2
        subst hf hm hb
        rw [List.cons_append, hrec]
      · exact absurd h (by simp)

theorem dropWhile_head_false {α : Type} (P : α → Bool) :
    ∀ (a : List α) (c : α) (d : List α), a.dropWhile P = c :: d → P c = false := by
  intro a
  induction a with
  | nil => intro c d h; simp [List.dropWhile] at h
  | cons x xs ih =>
    intro c d h
    rw [List.dropWhile_cons] at h
    split at h
    · exact ih c d h
    · next hx =>
      obtain ⟨rfl, -⟩ := List.cons.injEq .. ▸ h
      exact Bool.of_not_eq_true hx

/-! ### Claim C6: counting clTRID matches -/

theorem findClTRID_none_suffixes (s : List Char) (h : findClTRID s = none) :
    ∀ n, clTRIDAt (s.drop n) = none := by
  induction s with
  | nil => intro n; rw [List.drop_nil]; rfl
  | cons c cs ih =>
    unfold findClTRID at h
    cases hm : clTRIDAt (c :: cs) with
    | some val => rw [hm] at h; exact absurd h (by simp)
    | none =>
      rw [hm] at h
      intro n
      cases n with
      | zero => simpa using hm
      | succ k =>
        rw [List.drop_succ_cons]
        exact ih h k

theorem clTRIDCount_zero_of (s : List Char) (h : ∀ n, clTRIDAt (s.drop n) = none) :
    clTRIDCount s = 0 := by
  induction s with
  | nil => rfl
  | cons c cs ih =>
    rw [clTRIDCount]
    have h0 := h 0
    rw [List.drop_zero] at h0
    rw [h0]
    simp only [Option.isSome_none, Bool.false_eq_true, if_false, Nat.zero_add]
    apply ih
    intro n
    have hn := h (n + 1)
    rwa [List.drop_succ_cons] at hn

theorem crossCl_append (a b B : List Char) :
    crossCl (a ++ b) B = crossCl a (b ++ B) + crossCl b B := by
  induction a with
  | nil => simp [crossCl]
  | cons c cs ih =>
    rw [List.cons_append, crossCl, crossCl, ih]
    simp only [List.cons_append, List.append_assoc]
    omega

theorem clTRIDCount_append (A B : List Char) :
    clTRIDCount (A ++ B) = crossCl A B + clTRIDCount B := by
  induction A with
  | nil => simp [crossCl, clTRIDCount]
  | cons c cs ih =>
    rw [List.cons_append, clTRIDCount, crossCl, ih]
    simp only [List.cons_append]
    omega

theorem crossCl_zero_of_heads (A B : List Char)
    (h : ∀ n, n < A.length → clTRIDAt (A.drop n ++ B) = none) : crossCl A B = 0 := by
  induction A with
  | nil => rfl
  | cons c cs ih =>
    rw [crossCl]
    have h0 := h 0 (by simp)
    rw [List.drop_zero] at h0
    rw [h0]
    simp only [Option.isSome_none, Bool.false_eq_true, if_false, Nat.zero_add]
    apply ih
    intro n hn
    have hs := h (n + 1) (by simpa using Nat.succ_lt_succ hn)
    rwa [List.drop_succ_cons] at hs

theorem findClTRID_append_of_crossZero (A B : List Char) (h : crossCl A B = 0) :
    findClTRID (A ++ B) = findClTRID B := by
  induction A with
  | nil => rfl
  | cons c cs ih =>
    rw [crossCl] at h
    cases hm : clTRIDAt ((c :: cs) ++ B) with
    | some val => rw [hm] at h; simp at h
    | none =>
      rw [hm] at h
      simp only [Option.isSome_none, Bool.false_eq_true, if_false, Nat.zero_add] at h
      have hm2 : clTRIDAt (c :: (cs ++ B)) = none := by
        rw [← List.cons_append]
        exact hm
      rw [List.cons_append, findClTRID, hm2]
      exact ih h

theorem crossCl_zero_of_no_lt (A B : List Char)
    (h : ∀ c ∈ A, (lowerCh c == '<') = false) : crossCl A B = 0 := by
  apply crossCl_zero_of_heads
  intro n hn
  cases hd : A.drop n with
  | nil =>
    exfalso
    have hl := congrArg List.length hd
    simp only [List.length_drop, List.length_nil] at hl
    omega
  | cons c d =>
    rw [List.cons_append]
    apply clTRIDAt_cons_none
    apply h
    have hc : c ∈ A.drop n := by rw [hd]; exact List.mem_cons_self c d
    exact List.mem_of_mem_drop hc

/-- Destructured evaluation of `clTRIDAt`: opener fails. -/
theorem clTRIDAt_none_of_opener (s : List Char) (h : ciStrip opPat s = none) :
    clTRIDAt s = none := by
  unfold clTRIDAt
  simp only [h]

/-- Destructured evaluation of `clTRIDAt`: opener succeeds, closer fails. -/
theorem clTRIDAt_none_of_closer (s r : List Char) (h1 : ciStrip opPat s = some r)
    (h2 : ciStrip clPat (r.dropWhile (fun c => c ≠ '<')) = none) :
    clTRIDAt s = none := by
  unfold clTRIDAt
  simp only [h1, h2]

/-- Destructured evaluation of `clTRIDAt`: both parts succeed. -/
theorem clTRIDAt_some_of (s r rest : List Char) (h1 : ciStrip opPat s = some r)
    (h2 : ciStrip clPat (r.dropWhile (fun c => c ≠ '<')) = some rest) :
    clTRIDAt s = some (r.takeWhile (fun c => c ≠ '<'), rest) := by
  unfold clTRIDAt
  simp only [h1, h2]

/-- The clTRID pattern matches at the head of the injected element: the
escaped id (which holds no `<`) is the captured content and the closing
tag is consumed. -/
theorem clTRIDAt_injected (E T : List Char) (hE : '<' ∉ E) :
    clTRIDAt ("<clTRID>".data ++ (E ++ ("</clTRID>".data ++ T))) = some (E, T) := by
  have hEdrop : E.dropWhile (fun c => c ≠ '<') = [] := by
    apply List.dropWhile_eq_nil_iff.mpr
    intro c hc
    simp only [decide_eq_true_eq]
    exact fun he => hE (he ▸ hc)
  have hEtake : E.takeWhile (fun c => c ≠ '<') = E := by
    have hsplit := List.takeWhile_append_dropWhile (fun c => c ≠ '<') E
    rw [hEdrop, List.append_nil] at hsplit
    exact hsplit
  have htail : (("</clTRID>".data ++ T) : List Char).dropWhile (fun c => c ≠ '<') =
      "</clTRID>".data ++ T := by
    show (('<' :: ("/clTRID>".data ++ T)) : List Char).dropWhile (fun c => c ≠ '<') = _
    rw [List.dropWhile_cons]
    simp
  have htailtake : (("</clTRID>".data ++ T) : List Char).takeWhile (fun c => c ≠ '<') = [] := by
    show (('<' :: ("/clTRID>".data ++ T)) : List Char).takeWhile (fun c => c ≠ '<') = _
    rw [List.takeWhile_cons]
    simp
  have hdrop : (E ++ ("</clTRID>".data ++ T)).dropWhile (fun c => c ≠ '<') =
      "</clTRID>".data ++ T := by
    rw [List.dropWhile_append, hEdrop]
    simp [htail]
  have htake : (E ++ ("</clTRID>".data ++ T)).takeWhile (fun c => c ≠ '<') = E := by
    rw [List.takeWhile_append]
    rw [if_pos (by rw [hEtake])]
    rw [htailtake, List.append_nil]
  have h := clTRIDAt_some_of ("<clTRID>".data ++ (E ++ ("</clTRID>".data ++ T)))
    (E ++ ("</clTRID>".data ++ T)) T rfl (by rw [hdrop]; rfl)
  rwa [htake] at h

/-- Shifting past the injection point: if the clTRID pattern does not
match at a position of the original document (a suffix `u` followed by the
original tail `mb`), it does not match there in the injected document
either (`u` followed by the injected continuation). -/
theorem clTRIDAt_shift_none (u mb E back : List Char)
    (hno : clTRIDAt (u ++ mb) = none) :
    clTRIDAt (u ++ ("    <clTRID>".data ++ (E ++ ("</clTRID>".data ++
      ("\n  </command>".data ++ back))))) = none := by
  set B := "    <clTRID>".data ++ (E ++ ("</clTRID>".data ++ ("\n  </command>".data ++ back)))
    with hBsplit
  have hBw : B = ' ' :: ("   <clTRID>".data ++ (E ++ ("</clTRID>".data ++
      ("\n  </command>".data ++ back)))) := rfl
  cases hOp : ciStrip opPat (u ++ B) with
  | none => exact clTRIDAt_none_of_opener _ hOp
  | some r =>
    rcases ciStrip_append_split opPat u B r hOp with ⟨ru, hru, hr⟩ | ⟨hlen, hcont⟩
    · subst hr
      cases hd : ru.dropWhile (fun c => c ≠ '<') with
      | nil =>
        have hdropB : (ru ++ B).dropWhile (fun c => c ≠ '<') =
            "<clTRID>".data ++ (E ++ ("</clTRID>".data ++ ("\n  </command>".data ++ back))) := by
          rw [List.dropWhile_append, hd]
          simp only [List.isEmpty_nil, if_true]
          rw [hBsplit, List.dropWhile_append]
          rw [show ("    <clTRID>".data).dropWhile (fun c => c ≠ '<') = "<clTRID>".data
            from by decide]
          simp
        apply clTRIDAt_none_of_closer _ _ hOp
        rw [hdropB]
        rfl
      | cons c0 d =>
        have hc0 : c0 = '<' := by
          have hf := dropWhile_head_false (fun c => c ≠ '<') ru c0 d hd
          have hnn := of_decide_eq_false hf
          exact not_not.mp hnn
        subst hc0
        have hdropB : (ru ++ B).dropWhile (fun c => c ≠ '<') = ('<' :: d) ++ B := by
          rw [List.dropWhile_append, hd]
          simp
        cases hCl : ciStrip clPat (('<' :: d) ++ B) with
        | none =>
          apply clTRIDAt_none_of_closer _ _ hOp
          rw [hdropB, hCl]
        | some r2 =>
          exfalso
          rcases ciStrip_append_split clPat ('<' :: d) B r2 hCl with
            ⟨rd, hrd, hr2⟩ | ⟨hlen2, hcont2⟩
          · have h1 : ciStrip opPat (u ++ mb) = some (ru ++ mb) :=
              ciStrip_append_extend opPat u mb ru hru
            have h2 : (ru ++ mb).dropWhile (fun c => c ≠ '<') = ('<' :: d) ++ mb := by
              rw [List.dropWhile_append, hd]
              simp
            have h3 : ciStrip clPat (('<' :: d) ++ mb) = some (rd ++ mb) :=
              ciStrip_append_extend clPat ('<' :: d) mb rd hrd
            have hsome := clTRIDAt_some_of (u ++ mb) (ru ++ mb) (rd ++ mb) h1 (by rw [h2]; exact h3)
            rw [hno] at hsome
            exact absurd hsome (by simp)
          · have hsp : ∀ k, 1 ≤ k → k < 9 → ∀ (w : List Char),
                ciStrip (clPat.drop k) (' ' :: w) = none := by
              intro k h1 h2 w
              interval_cases k <;> (apply ciStrip_cons_false; decide)
            have hk1 : 1 ≤ ('<' :: d).length := by simp
            have hk9 : ('<' :: d).length < 9 := by simpa [clPat] using hlen2
            rw [hBw, hsp ('<' :: d).length hk1 hk9 _] at hcont2
            exact absurd hcont2 (by simp)
    · exfalso
      have hsp8 : ∀ k, k < 8 → ∀ (w : List Char),
          ciStrip (opPat.drop k) (' ' :: w) = none := by
        intro k hk w
        interval_cases k <;> (apply ciStrip_cons_false; decide)
      have hlen8 : u.length < 8 := by simpa [opPat] using hlen
      rw [hBw, hsp8 u.length hlen8 _] at hcont
      exact absurd hcont (by simp)

theorem crossCl_opTag (E T : List Char) (hE : '<' ∉ E) :
    crossCl "<clTRID>".data (E ++ ("</clTRID>".data ++ T)) = 1 := by
  show crossCl ('<' :: "clTRID>".data) (E ++ ("</clTRID>".data ++ T)) = 1
  rw [crossCl]
  have h1 : clTRIDAt (('<' :: "clTRID>".data) ++ (E ++ ("</clTRID>".data ++ T))) =
      some (E, T) := clTRIDAt_injected E T hE
  rw [h1]
  rw [crossCl_zero_of_no_lt "clTRID>".data _ (by decide)]
  rfl

theorem crossCl_closeTag (B : List Char) : crossCl "</clTRID>".data B = 0 := by
  show crossCl ('<' :: "/clTRID>".data) B = 0
  rw [crossCl]
  have h0 : clTRIDAt (('<' :: "/clTRID>".data) ++ B) = none := clTRIDAt_lt_slash _
  rw [h0]
  simp only [Option.isSome_none, Bool.false_eq_true, if_false, Nat.zero_add]
  exact crossCl_zero_of_no_lt _ _ (by decide)

theorem crossCl_cmdTag (B : List Char) : crossCl "</command>".data B = 0 := by
  show crossCl ('<' :: "/command>".data) B = 0
  rw [crossCl]
  have h0 : clTRIDAt (('<' :: "/command>".data) ++ B) = none := clTRIDAt_lt_slash _
  rw [h0]
  simp only [Option.isSome_none, Bool.false_eq_true, if_false, Nat.zero_add]
  exact crossCl_zero_of_no_lt _ _ (by decide)

theorem crossCl_nlCmd (B : List Char) : crossCl "\n  </command>".data B = 0 := by
  show crossCl ("\n  ".data ++ "</command>".data) B = 0
  rw [crossCl_append, crossCl_cmdTag, crossCl_zero_of_no_lt "\n  ".data _ (by decide)]

theorem escapeXmlChars_no_dollar (s : List Char) (hs : '$' ∉ s) :
    '$' ∉ escapeXmlChars s := by
  intro hmem
  obtain ⟨c, hc, hd⟩ := mem_escapeXmlChars '$' s hmem
  unfold escChar at hd
  repeat' split at hd
  · exact absurd hd (by decide)
  · exact absurd hd (by decide)
  · exact absurd hd (by decide)
  · exact absurd hd (by decide)
  · exact absurd hd (by decide)
  · simp only [List.mem_singleton] at hd
    exact hs (hd ▸ hc)

theorem getSubstitution_of_no_dollar (m f b : List Char) :
    ∀ repl : List Char, '$' ∉ repl → getSubstitution m f b repl = repl := by
  intro repl
  induction repl with
  | nil => intro _; rfl
  | cons c rest ih =>
    intro h
    have hc : c ≠ '$' := fun he => h (he ▸ List.mem_cons_self c rest)
    have hrest : '$' ∉ rest := fun hm => h (List.mem_cons_of_mem c hm)
    unfold getSubstitution
    rw [if_neg hc, ih hrest]

/-- When the transaction id holds no `$`, the replacement string holds no
`$`-pattern and the replace is the literal splice. -/
theorem injectOutput_eq_literal (front m back tid : List Char) (htid : '$' ∉ tid) :
    injectOutput front m back tid = injectLiteral front back tid := by
  have hrepl : '$' ∉ injectReplacement tid := by
    intro hmem
    unfold injectReplacement at hmem
    rcases List.mem_append.mp hmem with h1 | h2
    · rcases List.mem_append.mp h1 with h3 | h4
      · rcases List.mem_append.mp h3 with h5 | h6
        · exact absurd h5 (by decide)
        · exact escapeXmlChars_no_dollar tid htid h6
      · exact absurd h4 (by decide)
    · exact absurd h2 (by decide)
  unfold injectOutput injectLiteral
  rw [getSubstitution_of_no_dollar m front back _ hrepl]
  unfold injectReplacement
  simp [List.append_assoc]

/-- The literally-spliced document contains exactly one clTRID element —
the injected one, whose content is the escaped transaction id — provided
the original document (`front ++ m ++ back`, split at the replaced
`</command>` occurrence `m`) contained none. -/
theorem injectLiteral_count_find (front m back tid : List Char)
    (hnm : ∀ n, clTRIDAt ((front ++ (m ++ back)).drop n) = none) :
    clTRIDCount (injectLiteral front back tid) = 1 ∧
      findClTRID (injectLiteral front back tid) = some (escapeXmlChars tid) := by
  have hout : injectLiteral front back tid =
      front ++ ("    ".data ++ ("<clTRID>".data ++ (escapeXmlChars tid ++
        ("</clTRID>".data ++ ("\n  </command>".data ++ back))))) := by
    unfold injectLiteral
    rw [show ("    <clTRID>".data : List Char) = "    ".data ++ "<clTRID>".data from rfl]
    simp [List.append_assoc]
  have hfront : crossCl front ("    ".data ++ ("<clTRID>".data ++ (escapeXmlChars tid ++
      ("</clTRID>".data ++ ("\n  </command>".data ++ back))))) = 0 := by
    apply crossCl_zero_of_heads
    intro n hn
    have hno : clTRIDAt (front.drop n ++ (m ++ back)) = none := by
      have hs := hnm n
      rwa [List.drop_append_of_le_length (le_of_lt hn)] at hs
    exact clTRIDAt_shift_none (front.drop n) (m ++ back) (escapeXmlChars tid) back hno
  have hesc : crossCl (escapeXmlChars tid)
      ("</clTRID>".data ++ ("\n  </command>".data ++ back)) = 0 := by
    apply crossCl_zero_of_no_lt
    intro c hc
    exact lowerCh_beq_lt_false c
      (fun he => escapeXmlChars_no_meta '<' (by simp) tid (he ▸ hc))
  have hback : clTRIDCount back = 0 := by
    apply clTRIDCount_zero_of
    intro n
    have hs := hnm (front.length + (m.length + n))
    rwa [List.drop_append, List.drop_append] at hs
  constructor
  · rw [hout, clTRIDCount_append, clTRIDCount_append, clTRIDCount_append,
      clTRIDCount_append, clTRIDCount_append, clTRIDCount_append]
    rw [hfront, crossCl_zero_of_no_lt "    ".data _ (by decide),
      crossCl_opTag (escapeXmlChars tid) ("\n  </command>".data ++ back)
        (fun hmem => escapeXmlChars_no_meta '<' (by simp) tid hmem),
      hesc, crossCl_closeTag, crossCl_nlCmd, hback]
  · rw [hout, findClTRID_append_of_crossZero front _ hfront,
      findClTRID_append_of_crossZero "    ".data _
        (crossCl_zero_of_no_lt "    ".data _ (by decide))]
    rw [show ("<clTRID>".data : List Char) ++ (escapeXmlChars tid ++
        ("</clTRID>".data ++ ("\n  </command>".data ++ back))) =
      '<' :: ("clTRID>".data ++ (escapeXmlChars tid ++
        ("</clTRID>".data ++ ("\n  </command>".data ++ back)))) from rfl]
    rw [findClTRID]
    have hinj : clTRIDAt ('<' :: ("clTRID>".data ++ (escapeXmlChars tid ++
        ("</clTRID>".data ++ ("\n  </command>".data ++ back))))) =
        some (escapeXmlChars tid, "\n  </command>".data ++ back) :=
      clTRIDAt_injected (escapeXmlChars tid) ("\n  </command>".data ++ back)
        (fun hmem => escapeXmlChars_no_meta '<' (by simp) tid hmem)
    rw [hinj]

/-! ### Claim C6 -/

/-- C6 (amended): for an input whose trimmed form holds no `<clTRID>`
element, and a transaction id (provided, else freshly generated; the ids
the client generates never contain `$`) free of `$`: when a
(case-insensitive) `</command>` tag is present, `_prepareCommand` returns
XML in which a single `<clTRID>` element — holding the id, XML-escaped —
is injected at the position of the first `</command>` tag (the tag is
reinstated after the injected element), and that XML contains exactly one
clTRID element, whose content is the escaped id; when no `</command>` tag
is present, an error ("no </command> closing tag found") is returned,
never XML.  (The claim as frozen asserts this for every provided id; for
an id holding an active GetSubstitution `$`-pattern — `escapeXml` leaves
`$` alone — `String.prototype.replace` expands it, inserting the matched
or surrounding text instead: see the counterexample.) -/
theorem prepare_inject_clTRID (xml : List Char) (pid : Option (List Char)) (freshId : List Char)
    (hfind : findClTRID (jsTrimChars xml) = none) (htrim : jsTrimChars xml ≠ [])
    (hdollar : '$' ∉ pid.getD freshId) :
    (∀ front m back, ciSplitFirst cmdPat (jsTrimChars xml) = some (front, m, back) →
      prepareCommand xml pid freshId =
        .ok (injectLiteral front back (pid.getD freshId)) (pid.getD freshId) ∧
      clTRIDCount (injectLiteral front back (pid.getD freshId)) = 1 ∧
      findClTRID (injectLiteral front back (pid.getD freshId)) =
        some (escapeXmlChars (pid.getD freshId))) ∧
    (ciSplitFirst cmdPat (jsTrimChars xml) = none →
      prepareCommand xml pid freshId =
        .err "Unable to inject <clTRID>: no </command> closing tag found.".data) := by
  constructor
  · intro front m back hsplit
    have hm := ciSplitFirst_some_decomp cmdPat (jsTrimChars xml) front m back hsplit
    have hnm : ∀ n, clTRIDAt ((front ++ (m ++ back)).drop n) = none := by
      intro n
      have hs := findClTRID_none_suffixes _ hfind n
      rwa [hm] at hs
    obtain ⟨hcount, hfindout⟩ := injectLiteral_count_find front m back (pid.getD freshId) hnm
    refine ⟨?_, hcount, hfindout⟩
    rw [← injectOutput_eq_literal front m back (pid.getD freshId) hdollar]
    cases pid with
    | none =>
      unfold prepareCommand
      simp only [if_neg htrim, hfind, hsplit]
      rfl
    | some p =>
      unfold prepareCommand
      simp only [if_neg htrim, hfind, hsplit]
      rfl
  · intro hnone
    unfold prepareCommand
    simp only [if_neg htrim, hfind, hnone]

/-- C6 witness: a login-style command without `<clTRID>` gets the element
injected before `</command>`, exactly once, holding the provided id. -/
theorem prepare_inject_clTRID_witness :
    prepareCommand "<epp><command><login/></command></epp>".data (some "t1".data) "f".data =
      .ok ("<epp><command><login/>".data ++ "    <clTRID>".data ++ "t1".data ++
        "</clTRID>".data ++ "\n  </command>".data ++ "</epp>".data) "t1".data ∧
    clTRIDCount ("<epp><command><login/>".data ++ "    <clTRID>".data ++ "t1".data ++
      "</clTRID>".data ++ "\n  </command>".data ++ "</epp>".data) = 1 := by
  have h := (prepare_inject_clTRID "<epp><command><login/></command></epp>".data
    (some "t1".data) "f".data (by decide) (by decide) (by decide)).1
    "<epp><command><login/>".data "</command>".data "</epp>".data (by decide)
  obtain ⟨h1, h2, h3⟩ := h
  constructor
  · rw [h1]
    rfl
  · have heq : injectLiteral "<epp><command><login/>".data "</epp>".data
        ((some "t1".data).getD "f".data) =
        "<epp><command><login/>".data ++ "    <clTRID>".data ++ "t1".data ++
          "</clTRID>".data ++ "\n  </command>".data ++ "</epp>".data := by decide
    rwa [heq] at h2

/-- C6 counterexample (to the claim as frozen, which covers every
provided id): with the provided transaction id `$&`, `escapeXml` escapes
only the `&` (yielding `$&amp;`), and `String.prototype.replace` expands
the `$&` that then opens the replacement's element content to the matched
`</command>`: the returned XML holds `<clTRID></command>amp;</clTRID>`,
so it contains zero well-formed clTRID elements, not one holding the
escaped id. -/
theorem prepare_inject_dollar_pattern :
    prepareCommand "<command><x/></command>".data (some "$&".data) "f".data =
      .ok "<command><x/>    <clTRID></command>amp;</clTRID>\n  </command>".data
        "$&".data ∧
    clTRIDCount "<command><x/>    <clTRID></command>amp;</clTRID>\n  </command>".data = 0 ∧
    findClTRID "<command><x/>    <clTRID></command>amp;</clTRID>\n  </command>".data ≠
      some (escapeXmlChars "$&".data) := by
  exact ⟨by decide, by decide, by decide⟩

/-! ## xml2js value model (for `normalizeEppResponse`, src/src/index.js
lines 877-919, and its helpers `ensureArray` lines 921-927 and
`extractMessage` lines 929-954)

With `explicitArray:false` the parser produces strings, plain objects
(attributes under `"$"`, text of a mixed node under `"_"`) and arrays for
repeated elements; property access on anything else yields `undefined`. -/

inductive JsValue where
  | undefined
  | null
  | str (s : String)
  | obj (fields : List (String × JsValue))
  | arr (items : List JsValue)

/-- Property access `v[k]`, `undefined` when absent or when `v` is not an
object (the source only reads properties behind `?.` or `|| {}` guards). -/
def jsGet (v : JsValue) (k : String) : JsValue :=
  match v with
  | .obj fields =>
    match fields.find? (fun f => f.1 == k) with
    | some f => f.2
    | none => .undefined
  | _ => .undefined

/-- JavaScript truthiness of the values in the model. -/
def truthy : JsValue → Bool
  | .undefined => false
  | .null => false
  | .str s => !(s == "")
  | .obj _ => true
  | .arr _ => true

/-- The `a || b` operator. -/
def jsOr (a b : JsValue) : JsValue :=
  if truthy a then a else b

/-- The source's `ensureArray`: null/undefined become `[]`, an array is
itself, anything else a singleton. -/
def ensureArray : JsValue → List JsValue
  | .undefined => []
  | .null => []
  | .arr items => items
  | v => [v]

/-! ## JavaScript numbers and `Number(string)`

The engine sees numbers only as parsed result codes and configuration
fields, so a number is NaN, ±Infinity or a rational.  `jsNumber` models
`Number()` applied to a string: whitespace-trimmed; empty gives 0;
a hex/octal/binary literal, a signed decimal literal (with optional
fraction and exponent) or a signed `Infinity`; anything else NaN. -/

inductive JsNum where
  | nan
  | inf
  | ninf
  | num (q : ℚ)
deriving DecidableEq, Repr

def isDigitCh (c : Char) : Bool :=
  '0' ≤ c && c ≤ '9'

def digitsToNat (ds : List Char) : Nat :=
  ds.foldl (fun a c => a * 10 + (c.toNat - 48)) 0

def isHexDigitCh (c : Char) : Bool :=
  isDigitCh c || ('a' ≤ c && c ≤ 'f') || ('A' ≤ c && c ≤ 'F')

def hexVal (c : Char) : Nat :=
  if isDigitCh c then c.toNat - 48
  else if 'a' ≤ c && c ≤ 'f' then c.toNat - 87
  else c.toNat - 55

def hexDigitsToNat (ds : List Char) : Nat :=
  ds.foldl (fun a c => a * 16 + hexVal c) 0

def isOctDigitCh (c : Char) : Bool :=
  '0' ≤ c && c ≤ '7'

def octDigitsToNat (ds : List Char) : Nat :=
  ds.foldl (fun a c => a * 8 + (c.toNat - 48)) 0

def isBinDigitCh (c : Char) : Bool :=
  c == '0' || c == '1'

def binDigitsToNat (ds : List Char) : Nat :=
  ds.foldl (fun a c => a * 2 + (c.toNat - 48)) 0

/-- A `0x`/`0o`/`0b` integer literal (no sign allowed in JavaScript). -/
def parseNonDec : List Char → Option ℚ
  | '0' :: x :: rest =>
    if x == 'x' || x == 'X' then
      if rest ≠ [] ∧ rest.all isHexDigitCh then some (hexDigitsToNat rest : ℚ) else none
    else if x == 'o' || x == 'O' then
      if rest ≠ [] ∧ rest.all isOctDigitCh then some (octDigitsToNat rest : ℚ) else none
    else if x == 'b' || x == 'B' then
      if rest ≠ [] ∧ rest.all isBinDigitCh then some (binDigitsToNat rest : ℚ) else none
    else none
  | _ => none

/-- The exponent part after `e`/`E`: optional sign, then digits. -/
def parseExpDigits : List Char → Option Int
  | [] => none
  | c :: rest =>
    if c == '+' then
      if rest ≠ [] ∧ rest.all isDigitCh then some (digitsToNat rest : Int) else none
    else if c == '-' then
      if rest ≠ [] ∧ rest.all isDigitCh then some (-(digitsToNat rest : Int)) else none
    else
      if (c :: rest).all isDigitCh then some (digitsToNat (c :: rest) : Int) else none

/-- The rational value of integer digits `ip`, fraction digits `fp` and a
decimal exponent `e`: `ip.fp × 10^e`, computed over integers so the kernel
can evaluate it. -/
def decValue (ip fp : List Char) (e : Int) : ℚ :=
  let mant : Int := (digitsToNat (ip ++ fp) : Int)
  let ex : Int := e - fp.length
  if 0 ≤ ex then ((mant * ((10 ^ ex.toNat : Nat) : Int) : Int) : ℚ)
  else mkRat mant (10 ^ (-ex).toNat)

/-- Apply an optional exponent part to the parsed mantissa digits. -/
def applyExp (ip fp : List Char) : List Char → Option ℚ
  | [] => some (decValue ip fp 0)
  | c :: rest =>
    if c == 'e' || c == 'E' then
      match parseExpDigits rest with
      | some e => some (decValue ip fp e)
      | none => none
    else none

/-- An unsigned decimal literal: digits, optional `.` and fraction digits
(at least one digit in total), optional exponent. -/
def parseUnsignedDec (t : List Char) : Option ℚ :=
  let ip := t.takeWhile isDigitCh
  let r1 := t.dropWhile isDigitCh
  match r1 with
  | '.' :: r2 =>
    let fp := r2.takeWhile isDigitCh
    let r3 := r2.dropWhile isDigitCh
    if ip = [] ∧ fp = [] then none
    else applyExp ip fp r3
  | _ =>
    if ip = [] then none
    else applyExp ip [] r1

/-- An unsigned numeric tail: `Infinity` or an unsigned decimal literal,
NaN otherwise; `neg` negates. -/
def parseSignedTail (rest : List Char) (neg : Bool) : JsNum :=
  if rest = "Infinity".data then (if neg then .ninf else .inf)
  else
    match parseUnsignedDec rest with
    | some q => .num (if neg then -q else q)
    | none => .nan

/-- `Number()` applied to a string. -/
def jsNumber (s : String) : JsNum :=
  let t := jsTrimChars s.data
  if t = [] then .num 0
  else
    match parseNonDec t with
    | some q => .num q
    | none =>
      match t with
      | '+' :: rest => parseSignedTail rest false
      | '-' :: rest => parseSignedTail rest true
      | _ => parseSignedTail t false

/-- `Number(value)` on a model value.  Attribute values produced by xml2js
are strings; the object/array cases (whose JavaScript coercion goes
through ToPrimitive) do not occur on the attribute path and are modelled
as NaN. -/
def jsToNumber : JsValue → JsNum
  | .str s => jsNumber s
  | .null => .num 0
  | .undefined => .nan
  | .obj _ => .nan
  | .arr _ => .nan

/-- The comparison `n < bound` on a JavaScript number (false for NaN). -/
def jsNumLtQ (n : JsNum) (bound : ℚ) : Bool :=
  match n with
  | .nan => false
  | .inf => false
  | .ninf => true
  | .num q => q < bound

/-! ## The response normalizer -/

mutual

/-- The source's `extractMessage`: flatten an XML message body to text —
falsy values give `""`, strings are trimmed, arrays are flattened and
joined with single spaces, objects yield their `_` text when it is a
string and otherwise the flattening of all their values. -/
def extractMessage : JsValue → String
  | .undefined => ""
  | .null => ""
  | .str s => if s = "" then "" else jsTrim s
  | .arr items =>
    String.intercalate " " ((extractMessageList items).filter (fun m => m ≠ ""))
  | .obj fields =>
    match fields.find? (fun f => f.1 == "_") with
    | some ⟨_, .str t⟩ => jsTrim t
    | _ =>
      String.intercalate " " ((extractMessageFields fields).filter (fun m => m ≠ ""))

def extractMessageList : List JsValue → List String
  | [] => []
  | v :: vs => extractMessage v :: extractMessageList vs

def extractMessageFields : List (String × JsValue) → List String
  | [] => []
  | f :: fs => extractMessage f.2 :: extractMessageFields fs

end

/-- The Normalized Result record (the source's plain object). -/
structure NormalizedResult where
  type : String
  success : Bool
  resultCode : Option JsNum
  resultMessage : String
  resultMessages : List String
  transactionId : JsValue
  serverTransactionId : JsValue
  data : JsValue
  queue : JsValue
  extension : JsValue

/-- `normalizeEppResponse` (lines 877-919): greeting detection, then the
response path — result list normalization, code attribute parsing, message
flattening, transaction-id extraction and the derived success flag
(`typeof resultCode === 'number' ? resultCode < 2000 : true`; the
resultCode is `Number(code)` when the code attribute is truthy, else
null). -/
def normalizeEppResponse (parsed : JsValue) : NormalizedResult :=
  let epp := jsOr (jsGet parsed "epp") (.obj [])
  if truthy (jsGet epp "greeting") then
    { type := "greeting"
      success := true
      resultCode := none
      resultMessage := ""
      resultMessages := []
      transactionId := .null
      serverTransactionId := .null
      data := jsGet epp "greeting"
      queue := .null
      extension := .null }
  else
    let response := jsOr (jsGet epp "response") (.obj [])
    let results := ensureArray (jsGet response "result")
    let firstResult := jsOr (results.headD .undefined) (.obj [])
    let codeAttr := jsGet (jsGet firstResult "$") "code"
    let resultCode : Option JsNum :=
      if truthy codeAttr then some (jsToNumber codeAttr) else none
    let resultMessages :=
      (results.map (fun item => extractMessage (jsGet item "msg"))).filter
        (fun msg => msg.length > 0)
    let success :=
      match resultCode with
      | some n => jsNumLtQ n 2000
      | none => true
    { type := "response"
      success := success
      resultCode := resultCode
      resultMessage := jsTrim (String.intercalate " " resultMessages)
      resultMessages := resultMessages
      transactionId := jsOr (jsGet (jsGet response "trID") "clTRID") .null
      serverTransactionId := jsOr (jsGet (jsGet response "trID") "svTRID") .null
      data := jsOr (jsGet response "resData") .null
      queue := jsOr (jsGet response "msgQ") .null
      extension := jsOr (jsGet response "extension") .null }

/-- The access path to the first result element's `code` attribute, as the
response path of `normalizeEppResponse` reads it. -/
def firstResultCodeAttr (parsed : JsValue) : JsValue :=
  jsGet (jsGet (jsOr ((ensureArray (jsGet (jsOr (jsGet (jsOr (jsGet parsed "epp")
    (.obj [])) "response") (.obj [])) "result")).headD .undefined) (.obj [])) "$") "code"

/-- A one-result response tree carrying the given `code` attribute. -/
def respTreeWithCode (code : String) : JsValue :=
  .obj [("epp", .obj [("response", .obj [
    ("result", .obj [("$", .obj [("code", .str code)]), ("msg", .str "Command completed")]),
    ("trID", .obj [("clTRID", .str "t1"), ("svTRID", .str "s1")])])])]

/-- A response tree whose result carries no `code` attribute. -/
def respTreeNoCode : JsValue :=
  .obj [("epp", .obj [("response", .obj [("result", .obj [("msg", .str "hello")])])])]

/-- A response tree with two result elements (codes 1000 and 2303). -/
def respTreeTwoResults : JsValue :=
  .obj [("epp", .obj [("response", .obj [
    ("result", .arr [
      .obj [("$", .obj [("code", .str "1000")]), ("msg", .str "ok")],
      .obj [("$", .obj [("code", .str "2303")]), ("msg", .str "no")]])])])]

/-- A greeting tree. -/
def greetingTree : JsValue :=
  .obj [("epp", .obj [("greeting", .obj [("svID", .str "Example EPP server")])])]

/-! ### Claims C1 and C7 -/

theorem normalize_greeting_fields (parsed : JsValue)
    (hg : truthy (jsGet (jsOr (jsGet parsed "epp") (.obj [])) "greeting") = true) :
    (normalizeEppResponse parsed).type = "greeting" ∧
      (normalizeEppResponse parsed).success = true ∧
      (normalizeEppResponse parsed).resultCode = none := by
  unfold normalizeEppResponse
  rw [if_pos hg]
  exact ⟨rfl, rfl, rfl⟩

theorem normalize_response_fields (parsed : JsValue)
    (hg : truthy (jsGet (jsOr (jsGet parsed "epp") (.obj [])) "greeting") = false) :
    (normalizeEppResponse parsed).type = "response" ∧
      (normalizeEppResponse parsed).resultCode =
        (if truthy (firstResultCodeAttr parsed) then some (jsToNumber (firstResultCodeAttr parsed))
         else none) ∧
      (normalizeEppResponse parsed).success =
        (match (if truthy (firstResultCodeAttr parsed)
            then some (jsToNumber (firstResultCodeAttr parsed)) else none : Option JsNum) with
          | some n => jsNumLtQ n 2000
          | none => true) := by
  unfold normalizeEppResponse firstResultCodeAttr
  rw [if_neg (by rw [hg]; exact Bool.false_ne_true)]
  exact ⟨rfl, rfl, rfl⟩

/-- C1: a normalized response is successful iff its result code is null
(absent/falsy code attribute) or a number below 2000 (NaN and +Infinity
compare false, faithful to the source's `resultCode < 2000`); a greeting
always has success and a null result code; concretely code 1000 gives
success, 2303 gives failure, an absent code gives success, and a greeting
gives success with a null code. -/
theorem normalize_success_contract (parsed : JsValue) :
    ((normalizeEppResponse parsed).type = "response" →
      ((normalizeEppResponse parsed).success = true ↔
        ((normalizeEppResponse parsed).resultCode = none ∨
          ∃ n, (normalizeEppResponse parsed).resultCode = some n ∧ jsNumLtQ n 2000 = true))) ∧
    ((normalizeEppResponse parsed).type = "greeting" →
      (normalizeEppResponse parsed).success = true ∧
        (normalizeEppResponse parsed).resultCode = none) ∧
    (normalizeEppResponse (respTreeWithCode "1000")).success = true ∧
    (normalizeEppResponse (respTreeWithCode "2303")).success = false ∧
    (normalizeEppResponse respTreeNoCode).success = true ∧
    (normalizeEppResponse greetingTree).success = true ∧
    (normalizeEppResponse greetingTree).resultCode = none := by
  refine ⟨?_, ?_, by decide, by decide, by decide, by decide, by decide⟩
  · intro hty
    cases hg : truthy (jsGet (jsOr (jsGet parsed "epp") (.obj [])) "greeting") with
    | true =>
      obtain ⟨ht, -, -⟩ := normalize_greeting_fields parsed hg
      rw [ht] at hty
      exact absurd hty (by decide)
    | false =>
      obtain ⟨-, hcode, hsucc⟩ := normalize_response_fields parsed hg
      rw [hsucc, hcode]
      by_cases hattr : truthy (firstResultCodeAttr parsed) = true
      · rw [if_pos hattr]
        constructor
        · intro h
          exact Or.inr ⟨jsToNumber (firstResultCodeAttr parsed), rfl, h⟩
        · rintro (h | ⟨n, hn, hlt⟩)
          · exact absurd h (by simp)
          · obtain rfl := Option.some_inj.mp hn
            exact hlt
      · rw [if_neg hattr]
        simp
  · intro hty
    cases hg : truthy (jsGet (jsOr (jsGet parsed "epp") (.obj [])) "greeting") with
    | true =>
      obtain ⟨-, hs, hc⟩ := normalize_greeting_fields parsed hg
      exact ⟨hs, hc⟩
    | false =>
      obtain ⟨ht, -, -⟩ := normalize_response_fields parsed hg
      rw [ht] at hty
      exact absurd hty (by decide)

/-- C7 (amended): the normalizer takes the first result element's `code`
attribute; the result code is null exactly when that attribute is absent
or an empty string (falsy); when the attribute is present and non-empty
the result code is `Number(attribute)` — which is NaN, not null, for a
string that does not parse as a number (see the counterexample) and need
not be an integer.  With several result elements only the first's code is
used (concrete conjunct). -/
theorem normalize_resultCode_amended (parsed : JsValue) :
    ((normalizeEppResponse parsed).type = "response" →
      ((normalizeEppResponse parsed).resultCode =
        (if truthy (firstResultCodeAttr parsed) then some (jsToNumber (firstResultCodeAttr parsed))
         else none)) ∧
      ((normalizeEppResponse parsed).resultCode = none ↔
        truthy (firstResultCodeAttr parsed) = false)) ∧
    (normalizeEppResponse respTreeTwoResults).resultCode = some (JsNum.num 1000) ∧
    (normalizeEppResponse (respTreeWithCode "1000")).resultCode = some (JsNum.num 1000) := by
  refine ⟨?_, by decide, by decide⟩
  intro hty
  cases hg : truthy (jsGet (jsOr (jsGet parsed "epp") (.obj [])) "greeting") with
  | true =>
    obtain ⟨ht, -, -⟩ := normalize_greeting_fields parsed hg
    rw [ht] at hty
    exact absurd hty (by decide)
  | false =>
    obtain ⟨-, hcode, -⟩ := normalize_response_fields parsed hg
    refine ⟨hcode, ?_⟩
    rw [hcode]
    by_cases hattr : truthy (firstResultCodeAttr parsed) = true
    · rw [if_pos hattr]
      simp [hattr]
    · rw [if_neg hattr]
      simp
      exact Bool.of_not_eq_true hattr

/-- C7 counterexample: a `code` attribute that does not parse as a number
yields `Number("abc") = NaN` as the result code — not null as the claim
states (and the response is consequently marked unsuccessful). -/
theorem normalize_resultCode_unparseable :
    (normalizeEppResponse (respTreeWithCode "abc")).resultCode = some JsNum.nan ∧
    decide ((normalizeEppResponse (respTreeWithCode "abc")).resultCode = none) = false ∧
    (normalizeEppResponse (respTreeWithCode "abc")).success = false := by
  exact ⟨by decide, by decide, by decide⟩

/-! ## Transaction correlator state (src/src/index.js, `sendCommand`
lines 191-223, `_processIncomingXml` lines 542-563, `_handleClose` lines
566-585, `_resolveAll` lines 597-605)

The event-loop actions on the pending table are modelled as transitions
on an explicit state: `pending` is the key set of the `Map` (keys are
unique, so `Map.delete` is a filter), `resolutions` the log of `settle`
calls delivered to callers, `unsolicited` the log of unmatched
`response` events, `closeEmits` the number of `close` events emitted. -/

inductive Outcome where
  | matchedResult
  | matchedError
  | timedOut
  | connectionClosed
  | socketFailure
deriving DecidableEq, Repr

structure CorrState where
  connected : Bool
  hasSocket : Bool
  pending : List (List Char)
  resolutions : List (List Char × Outcome)
  unsolicited : List (List Char)
  closeEmits : Nat
deriving DecidableEq, Repr

/-- `sendCommand` arms the timer only for a positive timeout:
`timeoutMs > 0 ? setTimeout(...) : null` (lines 200-205). -/
def armsTimer (timeoutMs : Int) : Bool :=
  timeoutMs > 0

/-- The timer callback (lines 201-204): `this._pending.delete(tid)` and
then `settle(timeout error)` — the entry is removed before the caller is
resolved. -/
def timeoutFire (tid : List Char) (st : CorrState) : CorrState :=
  { st with
    pending := st.pending.filter (fun t => t ≠ tid)
    resolutions := st.resolutions ++ [(tid, .timedOut)] }

/-- The matching step of `_processIncomingXml` (lines 544-557) for a
response carrying transaction id `tid`: a pending entry is removed and
its caller settled (with the result or a command error), an unmatched
response is emitted as an unsolicited `response` event. -/
def processResponseFor (tid : List Char) (success : Bool) (st : CorrState) : CorrState :=
  if st.pending.contains tid then
    { st with
      pending := st.pending.filter (fun t => t ≠ tid)
      resolutions := st.resolutions ++
        [(tid, if success then .matchedResult else .matchedError)] }
  else
    { st with unsolicited := st.unsolicited ++ [tid] }

/-- `_resolveAll` (lines 597-605): settle every pending caller with the
outcome, then clear the table. -/
def resolveAll (outcome : Outcome) (st : CorrState) : CorrState :=
  { st with
    resolutions := st.resolutions ++ st.pending.map (fun t => (t, outcome))
    pending := [] }

/-- `_handleClose` (lines 566-585): detach and clear the socket, remember
whether the connection had reached Connected, mark disconnected, resolve
all pending commands with the closure reason (the socket error when one
triggered the close, else the generic connection-closed error) when any
are pending, and emit `close` only when previously connected. -/
def handleClose (error : Option Outcome) (st : CorrState) : CorrState :=
  let st1 := { st with hasSocket := false }
  let wasConnected := st.connected
  let st2 := { st1 with connected := false }
  let reason := error.getD .connectionClosed
  let st3 := if st2.pending ≠ [] then resolveAll reason st2 else st2
  if wasConnected then { st3 with closeEmits := st3.closeEmits + 1 } else st3

theorem contains_filter_ne (l : List (List Char)) (tid : List Char) :
    (l.filter (fun t => t ≠ tid)).contains tid = false := by
  induction l with
  | nil => rfl
  | cons x xs ih =>
    rw [List.filter_cons]
    by_cases hx : x = tid
    · simp [hx, ih]
    · rw [if_pos (by simp [hx])]
      simp [List.contains_cons, ih, Ne.symm hx]

/-! ### Claim C3 -/

/-- C3: when the timeout fires, the pending entry for the transaction id
is removed (before the caller is resolved with the timeout error, which
is appended to the resolution log in the same step), so a response
arriving for that id afterwards finds no pending entry: it is emitted as
an unsolicited `response` event and settles no caller (the resolution
log is unchanged); and a timeout of 0 or less arms no timer at all. -/
theorem timeout_fires_once (st : CorrState) (tid : List Char) (success : Bool)
    (timeoutMs : Int) :
    ((timeoutFire tid st).pending.contains tid = false) ∧
    ((timeoutFire tid st).resolutions = st.resolutions ++ [(tid, Outcome.timedOut)]) ∧
    (processResponseFor tid success (timeoutFire tid st) =
      { timeoutFire tid st with
        unsolicited := (timeoutFire tid st).unsolicited ++ [tid] }) ∧
    (timeoutMs ≤ 0 → armsTimer timeoutMs = false) := by
  refine ⟨contains_filter_ne st.pending tid, rfl, ?_, ?_⟩
  · unfold processResponseFor
    rw [if_neg]
    intro h
    rw [show (timeoutFire tid st).pending = st.pending.filter (fun t => t ≠ tid) from rfl,
      contains_filter_ne st.pending tid] at h
    exact Bool.false_ne_true h
  · intro h
    unfold armsTimer
    simpa using h

/-- C3 witness: at a concrete one-command state with a zero timeout. -/
theorem timeout_fires_once_witness :
    (processResponseFor "t1".data true
        (timeoutFire "t1".data
          ⟨true, true, ["t1".data], [], [], 0⟩) =
      { timeoutFire "t1".data ⟨true, true, ["t1".data], [], [], 0⟩ with
        unsolicited := [("t1".data : List Char)] }) ∧
    armsTimer 0 = false := by
  have h := timeout_fires_once ⟨true, true, ["t1".data], [], [], 0⟩ "t1".data true 0
  refine ⟨?_, h.2.2.2 (by decide)⟩
  have h3 := h.2.2.1
  simpa using h3

/-! ### Claim C4 -/

/-- C4: whatever closes the connection (graceful disconnect, destroy, or
an unexpected socket closure/error all funnel into `_handleClose`), every
still-pending command is resolved exactly once with the closure reason —
the specific socket error when one triggered the close, else the generic
connection-closed error — the pending table is empty afterwards, the
socket reference is cleared, and a `close` notification is emitted iff
the connection had previously reached Connected; running the close path
again emits no further `close` event and settles no further caller. -/
theorem close_flushes_pending (st : CorrState) (error error2 : Option Outcome) :
    ((handleClose error st).pending = []) ∧
    ((handleClose error st).resolutions =
      st.resolutions ++ st.pending.map (fun t => (t, error.getD Outcome.connectionClosed))) ∧
    ((handleClose error st).closeEmits =
      st.closeEmits + (if st.connected then 1 else 0)) ∧
    ((handleClose error st).hasSocket = false) ∧
    ((handleClose error st).connected = false) ∧
    ((handleClose error2 (handleClose error st)).closeEmits =
      (handleClose error st).closeEmits) ∧
    ((handleClose error2 (handleClose error st)).resolutions =
      (handleClose error st).resolutions) := by
  by_cases hp : st.pending = [] <;> by_cases hc : st.connected <;>
    simp [handleClose, resolveAll, hp, hc]

/-! ## Configuration validation (src/src/index.js,
`EppClientConfig.validate` lines 29-43, and the validation-first part of
`connect` lines 91-101) -/

/-- `Number.isInteger`. -/
def jsIsInteger : JsNum → Bool
  | .num q => q.den == 1
  | _ => false

/-- `n <= bound` on a JavaScript number (false for NaN). -/
def jsNumLeQ (n : JsNum) (bound : ℚ) : Bool :=
  match n with
  | .nan => false
  | .inf => false
  | .ninf => true
  | .num q => q ≤ bound

/-- `n > bound` on a JavaScript number (false for NaN). -/
def jsNumGtQ (n : JsNum) (bound : ℚ) : Bool :=
  match n with
  | .nan => false
  | .inf => true
  | .ninf => false
  | .num q => bound < q

/-- The configuration value object (host as a string, the numeric fields
as JavaScript numbers). -/
structure EppClientConfig where
  host : List Char
  port : JsNum
  rejectUnauthorized : Bool
  defaultTimeout : JsNum
deriving DecidableEq, Repr

/-- `EppClientConfig.validate` (lines 29-43): an `Error` for a falsy
host, a port that is not an integer in [1, 65535], or a default timeout
that is not a non-negative integer; `null` otherwise. -/
def validate (c : EppClientConfig) : Option (List Char) :=
  if c.host = [] then some "The \"host\" option is required.".data
  else if !(jsIsInteger c.port) || jsNumLeQ c.port 0 || jsNumGtQ c.port 65535 then
    some "The \"port\" option must be an integer between 1 and 65535.".data
  else if !(jsIsInteger c.defaultTimeout) || jsNumLtQ c.defaultTimeout 0 then
    some "The \"defaultTimeout\" option must be a non-negative integer.".data
  else none

/-- The validation-first prefix of `connect` (lines 91-101): the
validation error when the configuration is invalid, the already-connected
error when a socket is held, and `none` exactly when `connect` proceeds
to open the TLS connection. -/
def connectCheck (c : EppClientConfig) (hasSocket : Bool) : Option (List Char) :=
  match validate c with
  | some e => some e
  | none => if hasSocket then some "The client is already connected.".data else none

theorem port_ok_iff (n : JsNum) :
    (!(jsIsInteger n) || jsNumLeQ n 0 || jsNumGtQ n 65535) = false ↔
      ∃ p : ℤ, n = .num (p : ℚ) ∧ 1 ≤ p ∧ p ≤ 65535 := by
  cases n with
  | nan => simp [jsIsInteger, jsNumLeQ, jsNumGtQ]
  | inf => simp [jsIsInteger, jsNumLeQ, jsNumGtQ]
  | ninf => simp [jsIsInteger, jsNumLeQ, jsNumGtQ]
  | num q =>
    simp only [jsIsInteger, jsNumLeQ, jsNumGtQ, Bool.or_eq_false_iff,
      Bool.not_eq_false', beq_iff_eq, decide_eq_false_iff_not, JsNum.num.injEq]
    constructor
    · rintro ⟨⟨hden, hpos⟩, hle⟩
      have hq : ((q.num : ℤ) : ℚ) = q := (Rat.den_eq_one_iff q).mp hden
      refine ⟨q.num, hq.symm, ?_, ?_⟩
      · have h0 : 0 < q := lt_of_not_le hpos
        have := Rat.num_pos.mpr h0
        omega
      · have hle2 : q ≤ 65535 := le_of_not_lt hle
        rw [← hq] at hle2
        exact_mod_cast hle2
    · rintro ⟨p, hp, h1p, hp65⟩
      subst hp
      refine ⟨⟨by simp, ?_⟩, ?_⟩
      · intro hle
        have : (p : ℚ) > 0 := by exact_mod_cast (by omega : (0 : ℤ) < p)
        exact absurd hle (not_le.mpr this)
      · intro hgt
        have : (p : ℚ) ≤ 65535 := by exact_mod_cast hp65
        exact absurd hgt (not_lt.mpr this)

theorem timeout_ok_iff (n : JsNum) :
    (!(jsIsInteger n) || jsNumLtQ n 0) = false ↔
      ∃ t : ℤ, n = .num (t : ℚ) ∧ 0 ≤ t := by
  cases n with
  | nan => simp [jsIsInteger, jsNumLtQ]
  | inf => simp [jsIsInteger, jsNumLtQ]
  | ninf => simp [jsIsInteger, jsNumLtQ]
  | num q =>
    simp only [jsIsInteger, jsNumLtQ, Bool.or_eq_false_iff,
      Bool.not_eq_false', beq_iff_eq, decide_eq_false_iff_not, JsNum.num.injEq]
    constructor
    · rintro ⟨hden, hneg⟩
      have hq : ((q.num : ℤ) : ℚ) = q := (Rat.den_eq_one_iff q).mp hden
      refine ⟨q.num, hq.symm, ?_⟩
      have h0 : 0 ≤ q := le_of_not_lt hneg
      exact Rat.num_nonneg.mpr h0
    · rintro ⟨t, ht, h0t⟩
      subst ht
      refine ⟨by simp, ?_⟩
      intro hlt
      have : (0 : ℚ) ≤ (t : ℚ) := by exact_mod_cast h0t
      exact absurd hlt (not_lt.mpr this)

/-! ### Claim C9 -/

/-- C9: the validation-first prefix of `connect` returns an error value
exactly unless the host is non-empty, the port is an integer in
[1, 65535], the default timeout is a non-negative integer, and the
instance holds no socket; only then does `connect` proceed to open the
TLS connection. -/
theorem connect_validation (c : EppClientConfig) (hasSocket : Bool) :
    connectCheck c hasSocket = none ↔
      (c.host ≠ [] ∧
        (∃ p : ℤ, c.port = .num (p : ℚ) ∧ 1 ≤ p ∧ p ≤ 65535) ∧
        (∃ t : ℤ, c.defaultTimeout = .num (t : ℚ) ∧ 0 ≤ t) ∧
        hasSocket = false) := by
  unfold connectCheck validate
  by_cases h1 : c.host = []
  · simp [h1]
  · rw [if_neg h1]
    by_cases h2 : (!(jsIsInteger c.port) || jsNumLeQ c.port 0 || jsNumGtQ c.port 65535) = true
    · rw [if_pos h2]
      constructor
      · intro h
        simp at h
      · rintro ⟨-, hport, -, -⟩
        have hf := (port_ok_iff c.port).mpr hport
        rw [hf] at h2
        exact absurd h2 (by simp)
    · rw [if_neg h2]
      by_cases h3 : (!(jsIsInteger c.defaultTimeout) || jsNumLtQ c.defaultTimeout 0) = true
      · rw [if_pos h3]
        constructor
        · intro h
          simp at h
        · rintro ⟨-, -, htime, -⟩
          have hf := (timeout_ok_iff c.defaultTimeout).mpr htime
          rw [hf] at h3
          exact absurd h3 (by simp)
      · rw [if_neg h3]
        cases hasSocket with
        | true =>
          constructor
          · intro h
            simp at h
          · rintro ⟨-, -, -, hs⟩
            exact absurd hs (by simp)
        | false =>
          constructor
          · intro _
            exact ⟨h1, (port_ok_iff c.port).mp (Bool.of_not_eq_true h2),
              (timeout_ok_iff c.defaultTimeout).mp (Bool.of_not_eq_true h3), rfl⟩
          · intro _
            rfl

end EppClient
